import Mathlib

/-!
Verification of the `cross_entropy` function from `src/codes/cross_entropy.py`:

```python
def cross_entropy(Y, P):
    total=0
    for i in range(len(Y)):
        total+=Y[i]*(-math.log(P[i]))+(1-Y[i])*(-math.log(1-P[i]))
    return total
```

The embedding models Python floats as real numbers.  `math.log` raises a
`ValueError` (math domain error) on a non-positive argument, and list
indexing `P[i]` raises an `IndexError` when `i >= len(P)`; both kinds of
exception are modelled by an `Except CEError` result.  The loop
`for i in range(len(Y))` is modelled by the index-driven recursion
`ceLoop`, which walks `i = 0, 1, ..., len(Y) - 1` carrying the running
`total`, exactly as the Python loop does: at each step it first accesses
`P[i]` (raising `indexError` when out of range), then evaluates
`math.log(P[i])` and `math.log(1 - P[i])` in that order (raising
`domainError` when the argument is not positive), and finally adds the
term `Y[i]*(-log P[i]) + (1-Y[i])*(-log(1-P[i]))` to the total.
-/

/-- Kinds of Python exception the `cross_entropy` body can raise:
`indexError` for an out-of-range list access `P[i]`, `domainError` for
`math.log` applied to a non-positive argument (Python `ValueError:
math domain error`). -/
inductive CEError where
  | indexError
  | domainError
deriving DecidableEq

/-- One summand of the loop body:
`Y[i]*(-math.log(P[i])) + (1-Y[i])*(-math.log(1-P[i]))`,
read off at index `i` (out-of-range reads never happen where this is
used with `i < Y.length` and `i < P.length`; `getD _ 0` is a total
rendering of the in-bounds access). -/
noncomputable def ceTerm (Y P : List ℝ) (i : ℕ) : ℝ :=
  Y.getD i 0 * (-Real.log (P.getD i 0)) + (1 - Y.getD i 0) * (-Real.log (1 - P.getD i 0))

/-- The loop `for i in range(len(Y)): total += ...` of `cross_entropy`,
modelled as a recursion on the loop index `i`.  Mirrors the Python
evaluation order: `P[i]` is accessed first (IndexError when
`i >= len(P)`), then `math.log(P[i])` (domain error unless `0 < P[i]`),
then `math.log(1 - P[i])` (domain error unless `P[i] < 1`), and only
then is the term accumulated. -/
noncomputable def ceLoop (Y P : List ℝ) (i : ℕ) (total : ℝ) : Except CEError ℝ :=
  if _h : i < Y.length then
    if i < P.length then
      if 0 < P.getD i 0 then
        if 0 < 1 - P.getD i 0 then
          ceLoop Y P (i + 1) (total + ceTerm Y P i)
        else .error .domainError
      else .error .domainError
    else .error .indexError
  else .ok total
termination_by Y.length - i

/-- `cross_entropy(Y, P)` from `src/codes/cross_entropy.py`: starts with
`total = 0`, runs the loop over `i in range(len(Y))`, and returns the
final total (or the first raised exception). -/
noncomputable def cross_entropy (Y P : List ℝ) : Except CEError ℝ :=
  ceLoop Y P 0 0

/-! ### Helper lemmas about the loop -/

/-- When every `P[j]` read by the remaining iterations lies strictly in
`(0,1)` and `P` is long enough, the loop completes and returns the
accumulated sum of the terms for indices `i ≤ j < Y.length`. -/
theorem ceLoop_ok (Y P : List ℝ) (hl : Y.length ≤ P.length)
    (hP : ∀ j, j < Y.length → 0 < P.getD j 0 ∧ P.getD j 0 < 1) :
    ∀ n i, Y.length - i = n → ∀ total : ℝ,
      ceLoop Y P i total = .ok (total + ∑ j ∈ Finset.Ico i Y.length, ceTerm Y P j) := by
  intro n
  induction n with
  | zero =>
    intro i hi total
    have h1 : ¬ i < Y.length := by omega
    rw [ceLoop, dif_neg h1]
    rw [Finset.Ico_eq_empty (by omega), Finset.sum_empty, add_zero]
  | succ n ih =>
    intro i hi total
    have h1 : i < Y.length := by omega
    have hiP : i < P.length := lt_of_lt_of_le h1 hl
    obtain ⟨hp0, hp1⟩ := hP i h1
    rw [ceLoop, dif_pos h1, if_pos hiP, if_pos hp0,
      if_pos (by linarith : (0:ℝ) < 1 - P.getD i 0)]
    rw [ih (i + 1) (by omega)]
    rw [Finset.sum_eq_sum_Ico_succ_bot h1]
    congr 1
    ring

/-- `cross_entropy` on valid inputs returns the binary cross-entropy sum. -/
theorem cross_entropy_eq_sum (Y P : List ℝ) (hl : Y.length ≤ P.length)
    (hP : ∀ j, j < Y.length → 0 < P.getD j 0 ∧ P.getD j 0 < 1) :
    cross_entropy Y P = .ok (∑ j ∈ Finset.range Y.length, ceTerm Y P j) := by
  rw [cross_entropy, ceLoop_ok Y P hl hP Y.length 0 (by omega) 0, zero_add,
    Finset.range_eq_Ico]

/-- When `P` is strictly shorter than `Y`, the loop cannot complete: it
raises a domain error at some invalid `P[j]` or, failing that, an index
error at `i = P.length`. -/
theorem ceLoop_short (Y P : List ℝ) (hl : P.length < Y.length) :
    ∀ n i, P.length - i = n → i ≤ P.length → ∀ total : ℝ,
      ∃ e, ceLoop Y P i total = .error e := by
  intro n
  induction n with
  | zero =>
    intro i hi hile total
    have hiY : i < Y.length := by omega
    have hiP : ¬ i < P.length := by omega
    rw [ceLoop, dif_pos hiY, if_neg hiP]
    exact ⟨.indexError, rfl⟩
  | succ n ih =>
    intro i hi hile total
    have hiY : i < Y.length := by omega
    have hiP : i < P.length := by omega
    rw [ceLoop, dif_pos hiY, if_pos hiP]
    by_cases hp0 : 0 < P.getD i 0
    · rw [if_pos hp0]
      by_cases hp1 : 0 < 1 - P.getD i 0
      · rw [if_pos hp1]
        exact ih (i + 1) (by omega) (by omega) _
      · rw [if_neg hp1]
        exact ⟨.domainError, rfl⟩
    · rw [if_neg hp0]
      exact ⟨.domainError, rfl⟩

/-- When `P` is long enough but some remaining index holds a value
outside `(0,1)`, the loop raises a math domain error. -/
theorem ceLoop_bad (Y P : List ℝ) (hl : Y.length ≤ P.length) :
    ∀ n i, Y.length - i = n → ∀ total : ℝ,
      (∃ j, i ≤ j ∧ j < Y.length ∧ ¬(0 < P.getD j 0 ∧ P.getD j 0 < 1)) →
      ceLoop Y P i total = .error .domainError := by
  intro n
  induction n with
  | zero =>
    intro i hi total hbad
    obtain ⟨j, hij, hjY, _⟩ := hbad
    omega
  | succ n ih =>
    intro i hi total hbad
    obtain ⟨j, hij, hjY, hjbad⟩ := hbad
    have hiY : i < Y.length := by omega
    have hiP : i < P.length := by omega
    rw [ceLoop, dif_pos hiY, if_pos hiP]
    by_cases hp0 : 0 < P.getD i 0
    · rw [if_pos hp0]
      by_cases hp1 : 0 < 1 - P.getD i 0
      · rw [if_pos hp1]
        refine ih (i + 1) (by omega) _ ⟨j, ?_, hjY, hjbad⟩
        rcases Nat.eq_or_lt_of_le hij with h | h
        · exact absurd ⟨h ▸ hp0, by rw [← h]; linarith⟩ hjbad
        · omega
      · rw [if_neg hp1]
    · rw [if_neg hp0]

/-! ### Claims -/

/-- C1: for every pair of lists `Y`, `P` of equal length with every
`P[i]` strictly in `(0,1)`, `cross_entropy Y P` returns (without error)
the sum over `i in 0..N-1` of
`Y[i]*(-ln P[i]) + (1-Y[i])*(-ln (1-P[i]))` —
the unnormalized (summed, not averaged) binary cross-entropy. -/
theorem C1_cross_entropy_is_bce_sum (Y P : List ℝ)
    (hlen : Y.length = P.length)
    (hP : ∀ j, j < P.length → 0 < P.getD j 0 ∧ P.getD j 0 < 1) :
    cross_entropy Y P =
      .ok (∑ j ∈ Finset.range Y.length,
        (Y.getD j 0 * (-Real.log (P.getD j 0)) +
         (1 - Y.getD j 0) * (-Real.log (1 - P.getD j 0)))) := by
  rw [cross_entropy_eq_sum Y P (le_of_eq hlen) (fun j hj => hP j (by omega))]
  rfl

/-- Witness for C1 at `Y = [1, 0]`, `P = [1/2, 1/2]`. -/
theorem C1_witness :
    ([1, 0] : List ℝ).length = ([1/2, 1/2] : List ℝ).length ∧
    (∀ j, j < ([1/2, 1/2] : List ℝ).length →
      0 < ([1/2, 1/2] : List ℝ).getD j 0 ∧ ([1/2, 1/2] : List ℝ).getD j 0 < 1) ∧
    cross_entropy [1, 0] [1/2, 1/2] =
      .ok (∑ j ∈ Finset.range ([1, 0] : List ℝ).length,
        (([1, 0] : List ℝ).getD j 0 * (-Real.log (([1/2, 1/2] : List ℝ).getD j 0)) +
         (1 - ([1, 0] : List ℝ).getD j 0) *
           (-Real.log (1 - ([1/2, 1/2] : List ℝ).getD j 0)))) := by
  refine ⟨by simp, ?_, ?_⟩
  · intro j hj
    simp only [List.length_cons, List.length_nil] at hj
    interval_cases j <;> norm_num [List.getD_cons_zero, List.getD_cons_succ]
  · exact C1_cross_entropy_is_bce_sum [1, 0] [1/2, 1/2] (by simp)
      (by
        intro j hj
        simp only [List.length_cons, List.length_nil] at hj
        interval_cases j <;> norm_num [List.getD_cons_zero, List.getD_cons_succ])

/-- C2 counterexample: `Y = [1]` and `P = [1/2, 1/2]` have different
lengths, yet `cross_entropy` raises no error at all — it silently
ignores the extra element of `P` and returns `-ln(1/2)`.  This refutes
the claim that every length mismatch raises an error. -/
theorem C2_counterexample :
    ([1] : List ℝ).length ≠ ([1/2, 1/2] : List ℝ).length ∧
    cross_entropy [1] [1/2, 1/2] = .ok (-Real.log (1/2)) ∧
    ∀ e, cross_entropy [1] [1/2, 1/2] ≠ .error e := by
  have hok : cross_entropy [1] [1/2, 1/2] = .ok (-Real.log (1/2)) := by
    rw [cross_entropy_eq_sum [1] [1/2, 1/2] (by simp)
      (by
        intro j hj
        simp only [List.length_cons, List.length_nil] at hj
        interval_cases j
        norm_num [List.getD_cons_zero, List.getD_cons_succ])]
    norm_num [Finset.sum_range_one, ceTerm, List.getD_cons_zero]
  refine ⟨by simp, hok, ?_⟩
  intro e he
  rw [hok] at he
  exact Except.noConfusion he

/-- C2 amended: `cross_entropy` raises an error on a length mismatch
only when `P` is shorter than `Y` — the loop's out-of-range access
`P[i]` raises an index error (or a domain error fires first at an
earlier invalid entry); in particular `cross_entropy [1, 0] [0.5]`
raises an error.  When `P` is longer than `Y`, no error is raised and
the extra elements are ignored. -/
theorem C2_short_P_raises (Y P : List ℝ) (h : P.length < Y.length) :
    ∃ e, cross_entropy Y P = .error e := by
  rw [cross_entropy]
  exact ceLoop_short Y P h P.length 0 (by omega) (by omega) 0

/-- Witness for the amended C2 at `Y = [1, 0]`, `P = [0.5]` (the
spec's own length-mismatch example). -/
theorem C2_witness :
    ([0.5] : List ℝ).length < ([1, 0] : List ℝ).length ∧
    ∃ e, cross_entropy [1, 0] [0.5] = .error e :=
  ⟨by simp, C2_short_P_raises [1, 0] [0.5] (by simp)⟩

/-- C3: for equal-length `Y` and `P`, if some `P[i]` is exactly 0 or
exactly 1 with the corresponding `Y[i]` putting nonzero weight on the
logarithm of zero, or some `P[i]` lies outside `[0,1]`, then
`cross_entropy` raises a math domain error that propagates to the
caller (no value is returned). -/
theorem C3_domain_error (Y P : List ℝ) (hlen : Y.length = P.length)
    (hbad : ∃ i, i < P.length ∧
      ((P.getD i 0 = 0 ∧ Y.getD i 0 ≠ 0) ∨ (P.getD i 0 = 1 ∧ Y.getD i 0 ≠ 1) ∨
       P.getD i 0 < 0 ∨ 1 < P.getD i 0)) :
    cross_entropy Y P = .error .domainError := by
  obtain ⟨i, hiP, hcase⟩ := hbad
  have hiY : i < Y.length := by omega
  rw [cross_entropy]
  refine ceLoop_bad Y P (le_of_eq hlen) Y.length 0 (by omega) 0 ⟨i, by omega, hiY, ?_⟩
  rintro ⟨hp0, hp1⟩
  rcases hcase with ⟨h, _⟩ | ⟨h, _⟩ | h | h <;> linarith

/-- Witness for C3 at `Y = [1]`, `P = [0]`: the weight on `ln 0` is 1. -/
theorem C3_witness :
    ([1] : List ℝ).length = ([0] : List ℝ).length ∧
    (∃ i, i < ([0] : List ℝ).length ∧
      ((([0] : List ℝ).getD i 0 = 0 ∧ ([1] : List ℝ).getD i 0 ≠ 0) ∨
       (([0] : List ℝ).getD i 0 = 1 ∧ ([1] : List ℝ).getD i 0 ≠ 1) ∨
       ([0] : List ℝ).getD i 0 < 0 ∨ 1 < ([0] : List ℝ).getD i 0)) ∧
    cross_entropy [1] [0] = .error .domainError := by
  refine ⟨by simp, ⟨0, by simp, Or.inl ⟨by norm_num [List.getD_cons_zero],
    by norm_num [List.getD_cons_zero]⟩⟩, ?_⟩
  exact C3_domain_error [1] [0] (by simp)
    ⟨0, by simp, Or.inl ⟨by norm_num [List.getD_cons_zero],
      by norm_num [List.getD_cons_zero]⟩⟩

/-- C10: for equal-length `Y` and `P`, if any `P[i]` is exactly 0 or
exactly 1 then `cross_entropy` raises a domain error regardless of
`Y[i]`, because both `math.log(P[i])` and `math.log(1-P[i])` are
evaluated unconditionally even when their weight is zero. -/
theorem C10_domain_error_regardless_of_Y (Y P : List ℝ)
    (hlen : Y.length = P.length)
    (hbad : ∃ i, i < P.length ∧ (P.getD i 0 = 0 ∨ P.getD i 0 = 1)) :
    cross_entropy Y P = .error .domainError := by
  obtain ⟨i, hiP, hcase⟩ := hbad
  have hiY : i < Y.length := by omega
  rw [cross_entropy]
  refine ceLoop_bad Y P (le_of_eq hlen) Y.length 0 (by omega) 0 ⟨i, by omega, hiY, ?_⟩
  rintro ⟨hp0, hp1⟩
  rcases hcase with h | h <;> linarith

/-- Witness for C10 at `Y = [0]`, `P = [0]`: the weight `Y[0]` on
`ln(P[0]) = ln 0` is zero, yet the call still raises a domain error. -/
theorem C10_witness :
    ([0] : List ℝ).length = ([0] : List ℝ).length ∧
    (∃ i, i < ([0] : List ℝ).length ∧
      (([0] : List ℝ).getD i 0 = 0 ∨ ([0] : List ℝ).getD i 0 = 1)) ∧
    cross_entropy [0] [0] = .error .domainError := by
  refine ⟨rfl, ⟨0, by simp, Or.inl (by norm_num [List.getD_cons_zero])⟩, ?_⟩
  exact C10_domain_error_regardless_of_Y [0] [0] rfl
    ⟨0, by simp, Or.inl (by norm_num [List.getD_cons_zero])⟩

/-- C4: for equal-length `Y` and `P` with every `Y[i]` in `[0,1]` and
every `P[i]` strictly in `(0,1)`, `cross_entropy` returns a (finite,
since it is a real number) non-negative value. -/
theorem C4_result_nonneg (Y P : List ℝ) (hlen : Y.length = P.length)
    (hY : ∀ j, j < Y.length → 0 ≤ Y.getD j 0 ∧ Y.getD j 0 ≤ 1)
    (hP : ∀ j, j < P.length → 0 < P.getD j 0 ∧ P.getD j 0 < 1) :
    ∃ r : ℝ, cross_entropy Y P = .ok r ∧ 0 ≤ r := by
  refine ⟨_, cross_entropy_eq_sum Y P (le_of_eq hlen) (fun j hj => hP j (by omega)), ?_⟩
  apply Finset.sum_nonneg
  intro j hj
  simp only [Finset.mem_range] at hj
  obtain ⟨hy0, hy1⟩ := hY j hj
  obtain ⟨hp0, hp1⟩ := hP j (by omega)
  have l1 : 0 ≤ -Real.log (P.getD j 0) := by
    rw [neg_nonneg]
    exact Real.log_nonpos (le_of_lt hp0) (le_of_lt hp1)
  have l2 : 0 ≤ -Real.log (1 - P.getD j 0) := by
    rw [neg_nonneg]
    exact Real.log_nonpos (by linarith) (by linarith)
  have t1 := mul_nonneg hy0 l1
  have t2 := mul_nonneg (by linarith : (0:ℝ) ≤ 1 - Y.getD j 0) l2
  rw [ceTerm]
  linarith

/-- Witness for C4 at `Y = [1]`, `P = [1/2]`. -/
theorem C4_witness :
    ([1] : List ℝ).length = ([1/2] : List ℝ).length ∧
    (∀ j, j < ([1] : List ℝ).length →
      0 ≤ ([1] : List ℝ).getD j 0 ∧ ([1] : List ℝ).getD j 0 ≤ 1) ∧
    (∀ j, j < ([1/2] : List ℝ).length →
      0 < ([1/2] : List ℝ).getD j 0 ∧ ([1/2] : List ℝ).getD j 0 < 1) ∧
    ∃ r : ℝ, cross_entropy [1] [1/2] = .ok r ∧ 0 ≤ r := by
  refine ⟨rfl, ?_, ?_, ?_⟩
  · intro j hj
    simp only [List.length_cons, List.length_nil] at hj
    interval_cases j
    norm_num [List.getD_cons_zero]
  · intro j hj
    simp only [List.length_cons, List.length_nil] at hj
    interval_cases j
    norm_num [List.getD_cons_zero]
  · exact C4_result_nonneg [1] [1/2] rfl
      (by
        intro j hj
        simp only [List.length_cons, List.length_nil] at hj
        interval_cases j
        norm_num [List.getD_cons_zero])
      (by
        intro j hj
        simp only [List.length_cons, List.length_nil] at hj
        interval_cases j
        norm_num [List.getD_cons_zero])

/-- C5: `cross_entropy [] []` returns 0, the sum over the empty range. -/
theorem C5_empty : cross_entropy ([] : List ℝ) ([] : List ℝ) = .ok 0 := by
  rw [cross_entropy, ceLoop]
  norm_num

/-- C6: for every `p` strictly in `(0,1)`, `cross_entropy [1] [p]`
equals `-ln p` and `cross_entropy [0] [p]` equals `-ln (1-p)`. -/
theorem C6_singleton (p : ℝ) (h0 : 0 < p) (h1 : p < 1) :
    cross_entropy [1] [p] = .ok (-Real.log p) ∧
    cross_entropy [0] [p] = .ok (-Real.log (1 - p)) := by
  have hP : ∀ j, j < ([p] : List ℝ).length →
      0 < ([p] : List ℝ).getD j 0 ∧ ([p] : List ℝ).getD j 0 < 1 := by
    intro j hj
    simp only [List.length_cons, List.length_nil] at hj
    interval_cases j
    simp only [List.getD_cons_zero]
    exact ⟨h0, h1⟩
  constructor
  · rw [cross_entropy_eq_sum [1] [p] (by simp) hP]
    norm_num [Finset.sum_range_one, ceTerm, List.getD_cons_zero]
  · rw [cross_entropy_eq_sum [0] [p] (by simp) hP]
    norm_num [Finset.sum_range_one, ceTerm, List.getD_cons_zero]

/-- Witness for C6 at `p = 1/2`. -/
theorem C6_witness :
    (0:ℝ) < 1/2 ∧ (1:ℝ)/2 < 1 ∧
    (cross_entropy [1] [1/2] = .ok (-Real.log (1/2)) ∧
     cross_entropy [0] [1/2] = .ok (-Real.log (1 - 1/2))) :=
  ⟨by norm_num, by norm_num, C6_singleton (1/2) (by norm_num) (by norm_num)⟩

/-- C7: `cross_entropy [1,0,1,1] [0.4,0.6,0.9,0.2]` returns exactly
`-ln 0.4 - ln (1-0.6) - ln 0.9 - ln 0.2` (numerically ≈ 3.547). -/
theorem C7_example :
    cross_entropy [1, 0, 1, 1] [0.4, 0.6, 0.9, 0.2] =
      .ok (-Real.log 0.4 - Real.log (1 - 0.6) - Real.log 0.9 - Real.log 0.2) := by
  rw [cross_entropy_eq_sum [1, 0, 1, 1] [0.4, 0.6, 0.9, 0.2] (by simp)
    (by
      intro j hj
      simp only [List.length_cons, List.length_nil] at hj
      interval_cases j <;> norm_num [List.getD_cons_zero, List.getD_cons_succ])]
  norm_num [Finset.sum_range_succ, ceTerm, List.getD_cons_zero, List.getD_cons_succ]
  ring_nf

/-- C9: the result depends on `P` only through its first `len(Y)`
elements: for every `Y` and every pair `P`, `Q` whose first `len(Y)`
elements agree and lie strictly in `(0,1)`, the two calls return the
same value; in particular, when `P` is longer than `Y` the extra
elements are silently ignored and no error is raised (the call
returns an `ok` value). -/
theorem C9_depends_only_on_first_elements (Y P Q : List ℝ)
    (hP : Y.length ≤ P.length) (hQ : Y.length ≤ Q.length)
    (heq : ∀ j, j < Y.length → P.getD j 0 = Q.getD j 0)
    (hval : ∀ j, j < Y.length → 0 < P.getD j 0 ∧ P.getD j 0 < 1) :
    cross_entropy Y P = cross_entropy Y Q ∧
    ∃ r : ℝ, cross_entropy Y P = .ok r := by
  have hvalQ : ∀ j, j < Y.length → 0 < Q.getD j 0 ∧ Q.getD j 0 < 1 := fun j hj =>
    heq j hj ▸ hval j hj
  rw [cross_entropy_eq_sum Y P hP hval, cross_entropy_eq_sum Y Q hQ hvalQ]
  refine ⟨?_, _, rfl⟩
  congr 1
  refine Finset.sum_congr rfl ?_
  intro j hj
  simp only [Finset.mem_range] at hj
  rw [ceTerm, ceTerm, heq j hj]

/-- Witness for C9 at `Y = [1]`, `P = [1/2, 7/8]`, `Q = [1/2]`: the
longer `P` gives the same `ok` result as `Q`, so the extra element
`7/8` is ignored and no error is raised. -/
theorem C9_witness :
    ([1] : List ℝ).length ≤ ([1/2, 7/8] : List ℝ).length ∧
    ([1] : List ℝ).length ≤ ([1/2] : List ℝ).length ∧
    (∀ j, j < ([1] : List ℝ).length →
      ([1/2, 7/8] : List ℝ).getD j 0 = ([1/2] : List ℝ).getD j 0) ∧
    (∀ j, j < ([1] : List ℝ).length →
      0 < ([1/2, 7/8] : List ℝ).getD j 0 ∧ ([1/2, 7/8] : List ℝ).getD j 0 < 1) ∧
    (cross_entropy [1] [1/2, 7/8] = cross_entropy [1] [1/2] ∧
     ∃ r : ℝ, cross_entropy [1] [1/2, 7/8] = .ok r) := by
  refine ⟨by simp, by simp, ?_, ?_, ?_⟩
  · intro j hj
    simp only [List.length_cons, List.length_nil] at hj
    interval_cases j
    norm_num [List.getD_cons_zero]
  · intro j hj
    simp only [List.length_cons, List.length_nil] at hj
    interval_cases j
    norm_num [List.getD_cons_zero]
  · exact C9_depends_only_on_first_elements [1] [1/2, 7/8] [1/2] (by simp) (by simp)
      (by
        intro j hj
        simp only [List.length_cons, List.length_nil] at hj
        interval_cases j
        norm_num [List.getD_cons_zero])
      (by
        intro j hj
        simp only [List.length_cons, List.length_nil] at hj
        interval_cases j
        norm_num [List.getD_cons_zero])
